import Mathlib

/-!
Verification of the content-repository / review / pagination core of the
nextron-assessment-odin-vr repository, as a shallow embedding in Lean 4.

The embedding follows the TypeScript source:
* `VideoCarouselSection` in `src/renderer/components/VideoGrid.tsx`
  (windowed pagination state machine),
* `S3Service` in `src/renderer/services/reviewService.ts` / `s3Service.ts`
  (blob store used as a pseudo-database),
* `reviewService` in `src/renderer/services/reviewService.ts`
  (review store with ownership checks and reply appends).
-/

namespace OdinVR

/-! ## Catalog View: windowed pagination (`VideoGrid.tsx`, `VideoCarouselSection`)

State of the carousel component: the `videos` prop, the responsive
`itemsPerPage` (React state, initially 4) and `currentIndex` (React state,
initially 0).  `currentIndex` is a JS number that the code can drive
negative, so it is an `Int`. -/

structure CarouselState (α : Type) where
  videos : List α
  itemsPerPage : Nat
  currentIndex : Int
deriving Repr, DecidableEq

/-- Initial component state: `useState(0)` for the index, `useState(4)` for
the page size. -/
def initState {α : Type} (vs : List α) : CarouselState α :=
  { videos := vs, itemsPerPage := 4, currentIndex := 0 }

/-- `updateItemsPerPage`: 4 items at width >= 1024, 2 at width >= 768, else 1. -/
def updateItemsPerPage (width : Nat) : Nat :=
  if width ≥ 1024 then 4 else if width ≥ 768 then 2 else 1

/-- `nextSlide`: advance by a page, wrapping to 0 past the end. -/
def nextSlide {α : Type} (s : CarouselState α) : CarouselState α :=
  let nextIndex := s.currentIndex + s.itemsPerPage
  if nextIndex ≥ (s.videos.length : Int) then { s with currentIndex := 0 }
  else { s with currentIndex := nextIndex }

/-- `prevSlide`: retreat by a page, wrapping to `max(length - itemsPerPage, 0)`
below 0. -/
def prevSlide {α : Type} (s : CarouselState α) : CarouselState α :=
  let nextIndex := s.currentIndex - s.itemsPerPage
  if nextIndex < 0 then
    { s with currentIndex := max ((s.videos.length : Int) - s.itemsPerPage) 0 }
  else { s with currentIndex := nextIndex }

/-- `goToPage`: `setCurrentIndex(Math.min(pageIndex * itemsPerPage,
videos.length - itemsPerPage))`.  Note the source has no lower clamp. -/
def goToPage {α : Type} (s : CarouselState α) (pageIndex : Nat) : CarouselState α :=
  let newIndex : Int := (pageIndex : Int) * s.itemsPerPage
  { s with currentIndex := min newIndex ((s.videos.length : Int) - s.itemsPerPage) }

/-- Events the component reacts to: window resizes, the two arrows, the page
dots, and replacement of the `videos` prop by a data refresh. -/
inductive CarouselEvent (α : Type) where
  | resize (width : Nat)
  | advance
  | retreat
  | jump (pageIndex : Nat)
  | refresh (videos : List α)

/-- One transition of the carousel.  A resize recomputes `itemsPerPage` only;
a refresh replaces `videos` only — neither touches `currentIndex`. -/
def step {α : Type} (s : CarouselState α) : CarouselEvent α → CarouselState α
  | .resize w => { s with itemsPerPage := updateItemsPerPage w }
  | .advance => nextSlide s
  | .retreat => prevSlide s
  | .jump n => goToPage s n
  | .refresh vs => { s with videos := vs }

/-- Run a sequence of events from a state. -/
def run {α : Type} (s : CarouselState α) : List (CarouselEvent α) → CarouselState α
  | [] => s
  | e :: es => run (step s e) es

/-- Iterate one event `n` times. -/
def stepIter {α : Type} (s : CarouselState α) (e : CarouselEvent α) : Nat → CarouselState α
  | 0 => s
  | n + 1 => step (stepIter s e n) e

/-- Clamp one endpoint of `Array.prototype.slice`: a negative index counts
from the end (clamped at 0), a non-negative one is clamped at the length. -/
def jsSliceIndex (len : Nat) (i : Int) : Nat :=
  if i < 0 then ((len : Int) + i).toNat else min i.toNat len

/-- JavaScript `xs.slice(start, stop)`. -/
def jsSlice {α : Type} (xs : List α) (start stop : Int) : List α :=
  (xs.take (jsSliceIndex xs.length stop)).drop (jsSliceIndex xs.length start)

/-- `getVisibleVideos`: `[]` for an empty collection, otherwise
`videos.slice(currentIndex, Math.min(currentIndex + itemsPerPage, videos.length))`. -/
def getVisibleVideos {α : Type} (s : CarouselState α) : List α :=
  if s.videos.length = 0 then []
  else jsSlice s.videos s.currentIndex
    (min (s.currentIndex + s.itemsPerPage) (s.videos.length : Int))

/-! ## Content Repository (`S3Service`)

The S3 bucket is a key/value store.  Every object is either an opaque blob
(video or thumbnail file) or a JSON metadata sidecar; the sidecar is kept
parsed, so a blob stored under a metadata key plays the role of a sidecar
that fails `JSON.parse` during hydration. -/

/-- The shape of `VideoMetadata` in `types.ts`. -/
structure VideoMetadata where
  id : String
  userId : String
  title : String
  description : String
  thumbnailUrl : String
  thumbnailKey : String
  videoUrl : String
  videoKey : String
  duration : String
  category : String
  uploadDate : String
  isPublic : Bool
deriving Repr, DecidableEq

/-- A stored S3 object. -/
inductive S3Object where
  | blob (contents : String)
  | meta (m : VideoMetadata)
deriving Repr, DecidableEq

/-- The bucket: an association of keys to objects, in listing order. -/
structure S3State where
  objects : List (String × S3Object)
deriving Repr, DecidableEq

/-- Key lookup (`GetObjectCommand`): first binding of the key wins. -/
def lookupKey : List (String × S3Object) → String → Option S3Object
  | [], _ => none
  | (k, o) :: rest, key => if k = key then some o else lookupKey rest key

/-- Key write (`PutObjectCommand`): overwrite in place, or append a fresh key. -/
def putKey : List (String × S3Object) → String → S3Object → List (String × S3Object)
  | [], key, o => [(key, o)]
  | (k, v) :: rest, key, o =>
    if k = key then (key, o) :: rest else (k, v) :: putKey rest key o

/-- Key deletion (`DeleteObjectCommand`). -/
def removeKey (st : S3State) (key : String) : S3State :=
  ⟨st.objects.filter (fun p => p.1 != key)⟩

/-- The deterministic sidecar key: `metadata/${videoId}.json`. -/
def metadataKey (videoId : String) : String :=
  "metadata/" ++ videoId ++ ".json"

/-- `getSignedUrl`: a fresh presigned URL, a pure function of the key here
(the one-hour expiry is not part of the state). -/
def signedUrlFor (key : String) : String :=
  "https://signed/" ++ key

/-- `storeVideoMetadata`: write the sidecar under `metadata/${id}.json`. -/
def storeVideoMetadata (st : S3State) (m : VideoMetadata) : S3State :=
  ⟨putKey st.objects (metadataKey m.id) (S3Object.meta m)⟩

/-- `readVideoMetadata`: fetch and parse the sidecar; its `try/catch` turns a
missing object and a parse failure alike into `null`. -/
def readVideoMetadata (st : S3State) (videoId : String) : Option VideoMetadata :=
  match lookupKey st.objects (metadataKey videoId) with
  | some (S3Object.meta m) => some m
  | some (S3Object.blob _) => none
  | none => none

/-- The `UploadResult` type of `types.ts`. -/
structure UploadResult where
  success : Bool
  url : Option String
  key : Option String
  error : Option String
deriving Repr, DecidableEq

/-- The fields of `uploadVideo`'s `metadata` argument
(`Omit<VideoMetadata, 'videoUrl' | 'thumbnailUrl' | 'thumbnailKey' | 'videoKey'>`). -/
structure VideoMetadataDraft where
  id : String
  userId : String
  title : String
  description : String
  duration : String
  category : String
  uploadDate : String
  isPublic : Bool
deriving Repr, DecidableEq

/-- `uploadVideo`: put the video blob under `videos/${key}`, then write the
sidecar; the fresh record always carries empty `thumbnailKey`/`thumbnailUrl`. -/
def uploadVideo (st : S3State) (fileContents : String) (key : String)
    (metadata : VideoMetadataDraft) : S3State × UploadResult :=
  let videoKey := "videos/" ++ key
  let st1 : S3State := ⟨putKey st.objects videoKey (S3Object.blob fileContents)⟩
  let videoUrl := signedUrlFor videoKey
  let newVideo : VideoMetadata :=
    { id := metadata.id, userId := metadata.userId, title := metadata.title
      description := metadata.description, duration := metadata.duration
      category := metadata.category, uploadDate := metadata.uploadDate
      isPublic := metadata.isPublic, videoKey := videoKey, videoUrl := videoUrl
      thumbnailKey := "", thumbnailUrl := "" }
  let st2 := storeVideoMetadata st1 newVideo
  (st2, { success := true, key := some videoKey, url := some videoUrl, error := none })

/-- `uploadThumbnail`: put the thumbnail blob under `thumbnails/${key}`, then
re-read the sidecar; when it exists, rewrite it with the new key and URL.
When it does not exist the metadata update is skipped, and the result is the
same success value either way. -/
def uploadThumbnail (st : S3State) (fileContents : String) (key : String)
    (videoId : String) : S3State × UploadResult :=
  let thumbnailKey := "thumbnails/" ++ key
  let st1 : S3State := ⟨putKey st.objects thumbnailKey (S3Object.blob fileContents)⟩
  let thumbnailUrl := signedUrlFor thumbnailKey
  let st2 :=
    match readVideoMetadata st1 videoId with
    | some videoMetadata =>
      storeVideoMetadata st1
        { videoMetadata with thumbnailKey := thumbnailKey, thumbnailUrl := thumbnailUrl }
    | none => st1
  (st2, { success := true, key := some thumbnailKey,
          url := some thumbnailUrl, error := none })

/-- The outcome of `deleteVideo`: the final bucket, the returned value, and
the keys passed to `DeleteObjectCommand`, in order. -/
structure DeleteOutcome where
  state : S3State
  success : Bool
  error : Option String
  deletedKeys : List String
deriving Repr, DecidableEq

/-- `deleteVideo(videoId)`: read the sidecar (throwing `Video not found` if
absent), then delete the video blob if `metadata.videoKey` is truthy, the
thumbnail blob if `metadata.thumbnailKey` is truthy, and finally the sidecar.
The function takes no caller identity and performs no ownership check. -/
def deleteVideo (st : S3State) (videoId : String) : DeleteOutcome :=
  match readVideoMetadata st videoId with
  | none =>
    { state := st, success := false, error := some "Video not found", deletedKeys := [] }
  | some metadata =>
    let d1 : List String := if metadata.videoKey = "" then [] else [metadata.videoKey]
    let st1 := if metadata.videoKey = "" then st else removeKey st metadata.videoKey
    let d2 : List String := if metadata.thumbnailKey = "" then [] else [metadata.thumbnailKey]
    let st2 := if metadata.thumbnailKey = "" then st1 else removeKey st1 metadata.thumbnailKey
    let st3 := removeKey st2 (metadataKey videoId)
    { state := st3, success := true, error := none,
      deletedKeys := d1 ++ d2 ++ [metadataKey videoId] }

/-- JS `String.prototype.split('/')` on the character list. -/
def splitOnSlash : List Char → List (List Char)
  | [] => [[]]
  | c :: rest =>
    if c = '/' then [] :: splitOnSlash rest
    else
      match splitOnSlash rest with
      | g :: gs => (c :: g) :: gs
      | [] => [[c]]

/-- JS `String.prototype.replace(pat, '')` on the character list: remove the
first occurrence of `pat` only. -/
def removeFirst : List Char → List Char → List Char
  | [], _ => []
  | c :: rest, pat =>
    if pat.isPrefixOf (c :: rest) then (c :: rest).drop pat.length
    else c :: removeFirst rest pat

/-- JS `String.prototype.startsWith`.  (Like the remaining JS string
operations this is computed on the underlying character list, so that
concrete stores evaluate.) -/
def jsStartsWith (s pre : String) : Bool :=
  pre.data.isPrefixOf s.data

/-- JS `String.prototype.endsWith`. -/
def jsEndsWith (s suf : String) : Bool :=
  suf.data.isSuffixOf s.data

/-- The id recovered from a listed key:
`key.split('/').pop()?.replace('.json', '')`. -/
def extractVideoId (key : String) : String :=
  String.mk (removeFirst ((splitOnSlash key.data).getLastD []) ".json".data)

/-- The keys returned by `ListObjectsV2Command` with `Prefix: 'metadata/'`,
after the `endsWith('.json')` filter. -/
def listedMetadataKeys (st : S3State) : List String :=
  ((st.objects.map Prod.fst).filter (fun k => jsStartsWith k "metadata/")).filter
    (fun k => jsEndsWith k ".json")

/-- Rehydration of one record: fresh signed URLs from the stored keys, the
thumbnail URL empty when `thumbnailKey` is falsy. -/
def hydrate (metadata : VideoMetadata) : VideoMetadata :=
  { metadata with
    videoUrl := signedUrlFor metadata.videoKey
    thumbnailUrl :=
      if metadata.thumbnailKey = "" then "" else signedUrlFor metadata.thumbnailKey }

/-- Hydration of one listed key inside `getAllVideos`: recover the id
(`null` when falsy), re-read the sidecar (`null` when missing or corrupt),
and reissue the URLs.  A `none` is dropped from the listing. -/
def hydrateKey (st : S3State) (key : String) : Option VideoMetadata :=
  let videoId := extractVideoId key
  if videoId = "" then none
  else
    match readVideoMetadata st videoId with
    | none => none
    | some metadata => some (hydrate metadata)

/-- `getAllVideos`: list the sidecar keys and hydrate each, dropping the
per-item failures.  The whole body sits in a `try/catch` that logs and
returns `[]`, so a failing listing call surfaces as an ordinary empty
result, never as an error; `listSucceeds` says whether the transport call
of `ListObjectsV2Command` succeeded. -/
def getAllVideos (st : S3State) (listSucceeds : Bool) :
    Except String (List VideoMetadata) :=
  if listSucceeds then
    Except.ok ((listedMetadataKeys st).filterMap (hydrateKey st))
  else
    Except.ok []

/-- Whether an `Except` result of the listing is an error. -/
def isStoreError : Except String (List VideoMetadata) → Bool
  | Except.error _ => true
  | Except.ok _ => false

/-- The visibility test of `fetchAndFilterVideos` in `VideoGrid.tsx`:
`video.isPublic || (username && video.userId === username)`, where a `null`
or empty `username` is falsy. -/
def visibleFilter (username : Option String) (v : VideoMetadata) : Bool :=
  match username with
  | none => v.isPublic
  | some u => v.isPublic || (!(u == "") && v.userId == u)

/-- `fetchAndFilterVideos` restricted to its "All Videos" output: fetch the
listing and keep the visible records.  (The sort by `uploadDate` between the
fetch and the filter only permutes the list and is omitted.) -/
def fetchAndFilterVideos (st : S3State) (listSucceeds : Bool)
    (username : Option String) : List VideoMetadata :=
  match getAllVideos st listSucceeds with
  | Except.error _ => []
  | Except.ok videos => videos.filter (visibleFilter username)

/-- The ownership gate of `VideoOverlay.tsx`: the delete control renders only
when `currentUserId === video.userId` (and `currentUserId` is `null` for an
unauthenticated viewer). -/
def showDeleteControl (currentUserId : Option String) (videoUserId : String) : Bool :=
  currentUserId == some videoUserId

/-- Well-formedness of one stored binding: a sidecar lives exactly at the
canonical key of its non-empty id (so listing recovers the id), and a plain
blob never masquerades as a sidecar key. -/
def wellFormedEntry (e : String × S3Object) : Bool :=
  match e.2 with
  | S3Object.meta m =>
    e.1 == metadataKey m.id && extractVideoId e.1 == m.id && !(m.id == "") &&
      jsStartsWith e.1 "metadata/" && jsEndsWith e.1 ".json"
  | S3Object.blob _ => !(jsStartsWith e.1 "metadata/" && jsEndsWith e.1 ".json")

/-- A well-formed bucket: distinct keys, each binding well formed. -/
def wellFormed (st : S3State) : Prop :=
  (st.objects.map Prod.fst).Nodup ∧ ∀ e ∈ st.objects, wellFormedEntry e = true

instance (st : S3State) : Decidable (wellFormed st) := by
  unfold wellFormed; infer_instance

/-! ## Review Store (`reviewService`) -/

/-- The shape of `Reply` in `types.ts`. -/
structure Reply where
  id : String
  userId : String
  content : String
  createdAt : String
  userEmail : String
deriving Repr, DecidableEq

/-- The shape of `Review` in `types.ts`. -/
structure Review where
  id : String
  videoId : String
  userId : String
  rating : Int
  comment : String
  createdAt : String
  updatedAt : String
  userEmail : String
  replies : List Reply
deriving Repr, DecidableEq

/-- The shape of `UpdateReviewData` in `types.ts`. -/
structure UpdateReviewData where
  comment : String
  rating : Int
deriving Repr, DecidableEq

/-- The `Reviews` DynamoDB table, keyed by `Review.id`. -/
abbrev ReviewTable := List Review

/-- `GetCommand` on the `Reviews` table. -/
def getReview (table : ReviewTable) (reviewId : String) : Option Review :=
  table.find? (fun r => r.id == reviewId)

/-- `updateReview`: re-read the review, throw `Review not found` when absent,
throw `Unauthorized to edit this review` when the caller is not the author,
otherwise persist the new `comment`, `rating` and `updatedAt` via
`UpdateCommand` and return the updated item (`ReturnValues: 'ALL_NEW'`). -/
def updateReview (table : ReviewTable) (currentUserId : String) (reviewId : String)
    (data : UpdateReviewData) (now : String) : ReviewTable × Except String Review :=
  match getReview table reviewId with
  | none => (table, Except.error "Review not found")
  | some review =>
    if review.userId ≠ currentUserId then
      (table, Except.error "Unauthorized to edit this review")
    else
      let updated : Review :=
        { review with comment := data.comment, rating := data.rating, updatedAt := now }
      (table.map (fun r => if r.id == reviewId then updated else r), Except.ok updated)

/-- `deleteReview`: same re-read and ownership gate, then `DeleteCommand`. -/
def deleteReview (table : ReviewTable) (currentUserId : String) (reviewId : String) :
    ReviewTable × Except String Unit :=
  match getReview table reviewId with
  | none => (table, Except.error "Review not found")
  | some review =>
    if review.userId ≠ currentUserId then
      (table, Except.error "Unauthorized to delete this review")
    else
      (table.filter (fun r => !(r.id == reviewId)), Except.ok ())

/-- The fields of `addReply`'s argument (`Omit<Reply, 'id' | 'createdAt'>`). -/
structure ReplyDraft where
  userId : String
  content : String
  userEmail : String
deriving Repr, DecidableEq

/-- The reply record built by `addReply`: id `${reviewId}#${Date.now()}`. -/
def mkNewReply (reviewId : String) (reply : ReplyDraft) (nowMs : Nat)
    (nowIso : String) : Reply :=
  { id := reviewId ++ "#" ++ toString nowMs, userId := reply.userId,
    content := reply.content, createdAt := nowIso, userEmail := reply.userEmail }

/-- `addReply`: one `UpdateCommand` with
`set replies = list_append(if_not_exists(replies, :empty_list), :reply)` —
an additive append to the stored list, returning the new item.  (DynamoDB
would upsert a fresh item when the key is absent; every call site targets an
existing review and that branch is not modelled.) -/
def addReply (table : ReviewTable) (reviewId : String) (reply : ReplyDraft)
    (nowMs : Nat) (nowIso : String) : ReviewTable × Option Review :=
  let newReply := mkNewReply reviewId reply nowMs nowIso
  let table2 := table.map (fun r =>
    if r.id == reviewId then { r with replies := r.replies ++ [newReply] } else r)
  (table2, getReview table2 reviewId)

/-! ## Pagination invariants -/

/-- Guarded reachability for the carousel: any resize, advance or retreat;
jumps issued while the collection is at least one page long; refreshes that
do not shrink the collection to at most the current offset. -/
inductive ReachableG {α : Type} : CarouselState α → Prop where
  | init (vs : List α) : ReachableG (initState vs)
  | resize {s : CarouselState α} (w : Nat) (h : ReachableG s) :
      ReachableG (step s (CarouselEvent.resize w))
  | advance {s : CarouselState α} (h : ReachableG s) :
      ReachableG (step s CarouselEvent.advance)
  | retreat {s : CarouselState α} (h : ReachableG s) :
      ReachableG (step s CarouselEvent.retreat)
  | jump {s : CarouselState α} (n : Nat) (hfits : s.itemsPerPage ≤ s.videos.length)
      (h : ReachableG s) : ReachableG (step s (CarouselEvent.jump n))
  | refresh {s : CarouselState α} (vs : List α)
      (hok : vs = [] ∨ s.currentIndex < vs.length) (h : ReachableG s) :
      ReachableG (step s (CarouselEvent.refresh vs))

/-- The inductive invariant of the carousel window. -/
def carouselInv {α : Type} (s : CarouselState α) : Prop :=
  1 ≤ s.itemsPerPage ∧ 0 ≤ s.currentIndex ∧
    (s.videos ≠ [] → s.currentIndex < s.videos.length)

theorem updateItemsPerPage_pos (w : Nat) : 1 ≤ updateItemsPerPage w := by
  unfold updateItemsPerPage
  split_ifs <;> omega

theorem carouselInv_nextSlide {α : Type} {s : CarouselState α}
    (h : carouselInv s) : carouselInv (nextSlide s) := by
  obtain ⟨vs, P, i⟩ := s
  obtain ⟨h1, h2, h3⟩ := h
  simp only [carouselInv, nextSlide] at *
  split_ifs with hc <;> dsimp only
  · refine ⟨h1, le_refl 0, fun hne => ?_⟩
    exact_mod_cast List.length_pos.mpr hne
  · push_neg at hc
    have hP : (0 : Int) ≤ (P : Int) := Int.ofNat_nonneg P
    exact ⟨h1, by omega, fun _ => hc⟩

theorem carouselInv_prevSlide {α : Type} {s : CarouselState α}
    (h : carouselInv s) : carouselInv (prevSlide s) := by
  obtain ⟨vs, P, i⟩ := s
  obtain ⟨h1, h2, h3⟩ := h
  simp only [carouselInv, prevSlide] at *
  have hP : (1 : Int) ≤ (P : Int) := by exact_mod_cast h1
  split_ifs with hc <;> dsimp only
  · refine ⟨h1, le_max_right _ _, fun hne => ?_⟩
    have hL : 0 < vs.length := List.length_pos.mpr hne
    have hL2 : (0 : Int) < (vs.length : Int) := by exact_mod_cast hL
    rcases max_cases ((vs.length : Int) - (P : Int)) 0 with ⟨he, _⟩ | ⟨he, _⟩ <;> omega
  · push_neg at hc
    exact ⟨h1, hc, fun hne => by have := h3 hne; omega⟩

theorem carouselInv_goToPage {α : Type} {s : CarouselState α} (n : Nat)
    (hfits : s.itemsPerPage ≤ s.videos.length) (h : carouselInv s) :
    carouselInv (goToPage s n) := by
  obtain ⟨vs, P, i⟩ := s
  obtain ⟨h1, h2, h3⟩ := h
  simp only [carouselInv, goToPage] at *
  have hP : (1 : Int) ≤ (P : Int) := by exact_mod_cast h1
  have hfits2 : (P : Int) ≤ (vs.length : Int) := by exact_mod_cast hfits
  have hmul : (0 : Int) ≤ (n : Int) * (P : Int) := by positivity
  have hmin := min_le_right ((n : Int) * (P : Int)) ((vs.length : Int) - (P : Int))
  exact ⟨h1, le_min hmul (by omega), fun _ => by omega⟩

theorem carouselInv_of_reachable {α : Type} {s : CarouselState α}
    (h : ReachableG s) : carouselInv s := by
  induction h with
  | init vs =>
    refine ⟨by simp [initState], by simp [initState], fun hne => ?_⟩
    simp only [initState]
    exact_mod_cast List.length_pos.mpr hne
  | resize w h ih =>
    obtain ⟨h1, h2, h3⟩ := ih
    exact ⟨updateItemsPerPage_pos w, h2, h3⟩
  | advance h ih => exact carouselInv_nextSlide ih
  | retreat h ih => exact carouselInv_prevSlide ih
  | jump n hfits h ih => exact carouselInv_goToPage n hfits ih
  | refresh vs hok h ih =>
    obtain ⟨h1, h2, h3⟩ := ih
    refine ⟨h1, h2, fun hne => ?_⟩
    rcases hok with hnil | hlt
    · exact absurd hnil hne
    · exact hlt

theorem jsSlice_sublist {α : Type} (xs : List α) (a b : Int) :
    (jsSlice xs a b).Sublist xs :=
  ((xs.take (jsSliceIndex xs.length b)).drop_sublist _).trans (xs.take_sublist _)

theorem length_jsSlice {α : Type} (xs : List α) (a b : Int) :
    (jsSlice xs a b).length =
      min (jsSliceIndex xs.length b) xs.length - jsSliceIndex xs.length a := by
  simp [jsSlice]

/-- The visible window is literally the JS slice of the collection from
`currentIndex` to `currentIndex + itemsPerPage`: the extra `Math.min` with
the length in the source only pre-clamps what `slice` clamps anyway. -/
theorem getVisibleVideos_eq_jsSlice {α : Type} (s : CarouselState α) :
    getVisibleVideos s =
      jsSlice s.videos s.currentIndex (s.currentIndex + s.itemsPerPage) := by
  obtain ⟨vs, P, i⟩ := s
  simp only [getVisibleVideos]
  split_ifs with h0
  · have hnil : vs = [] := List.length_eq_zero.mp h0
    subst hnil
    simp [jsSlice]
  · have hidx : jsSliceIndex vs.length (min (i + (P : Int)) (vs.length : Int)) =
        jsSliceIndex vs.length (i + (P : Int)) := by
      rcases le_total (i + (P : Int)) (vs.length : Int) with hm | hm
      · rw [min_eq_left hm]
      · rw [min_eq_right hm]
        unfold jsSliceIndex
        split_ifs <;> omega
    show jsSlice vs i (min (i + (P : Int)) (vs.length : Int)) = jsSlice vs i (i + (P : Int))
    unfold jsSlice
    rw [hidx]

/-- **C3 (amended)**: in every carousel state reachable by resizes, advances
and retreats, by jumps issued while the collection holds at least one page,
and by refreshes that do not shrink the collection to at most the current
offset, the offset is non-negative and strictly below the collection length,
the visible window is exactly `videos.slice(currentIndex, currentIndex +
itemsPerPage)` (hence never out of range), and the window is non-empty
whenever the collection is.  (Unrestricted jumps and refreshes break this:
see the counterexample.) -/
theorem carousel_window_invariant {α : Type} (s : CarouselState α)
    (h : ReachableG s) :
    0 ≤ s.currentIndex ∧
    (s.videos ≠ [] → s.currentIndex < s.videos.length) ∧
    getVisibleVideos s =
      jsSlice s.videos s.currentIndex (s.currentIndex + s.itemsPerPage) ∧
    (∀ x ∈ getVisibleVideos s, x ∈ s.videos) ∧
    (s.videos ≠ [] → getVisibleVideos s ≠ []) := by
  obtain ⟨h1, h2, h3⟩ := carouselInv_of_reachable h
  refine ⟨h2, h3, getVisibleVideos_eq_jsSlice s, ?_, ?_⟩
  · intro x hx
    rw [getVisibleVideos_eq_jsSlice] at hx
    exact (jsSlice_sublist _ _ _).subset hx
  · intro hne
    have hL : 0 < s.videos.length := List.length_pos.mpr hne
    have hlt := h3 hne
    rw [getVisibleVideos_eq_jsSlice, ← List.length_pos, length_jsSlice]
    unfold jsSliceIndex
    have hP : (1 : Int) ≤ s.itemsPerPage := by exact_mod_cast h1
    split_ifs <;> omega

/-- **C3 witness**: the invariant evaluated in a concrete reachable state. -/
theorem carousel_window_invariant_witness :
    0 ≤ (initState ([0, 1, 2] : List Nat)).currentIndex ∧
    ((initState ([0, 1, 2] : List Nat)).videos ≠ [] →
      (initState ([0, 1, 2] : List Nat)).currentIndex <
        (initState ([0, 1, 2] : List Nat)).videos.length) ∧
    getVisibleVideos (initState ([0, 1, 2] : List Nat)) =
      jsSlice (initState ([0, 1, 2] : List Nat)).videos
        (initState ([0, 1, 2] : List Nat)).currentIndex
        ((initState ([0, 1, 2] : List Nat)).currentIndex +
          (initState ([0, 1, 2] : List Nat)).itemsPerPage) ∧
    (∀ x ∈ getVisibleVideos (initState ([0, 1, 2] : List Nat)),
      x ∈ (initState ([0, 1, 2] : List Nat)).videos) ∧
    ((initState ([0, 1, 2] : List Nat)).videos ≠ [] →
      getVisibleVideos (initState ([0, 1, 2] : List Nat)) ≠ []) :=
  carousel_window_invariant _ (ReachableG.init _)

/-- **C3 counterexample**: with two items and the initial page size 4, one
Jump-to-page(0) drives `currentIndex` to `-2 < 0`; and after an advance on
five items followed by a refresh to a one-item collection the window is
empty although the collection is not.  Both states are reachable by event
sequences the claim quantifies over. -/
theorem carousel_window_invariant_cex :
    (run (initState ([0, 1] : List Nat)) [CarouselEvent.jump 0]).currentIndex < 0 ∧
    (run (initState ([0, 1, 2, 3, 4] : List Nat))
        [CarouselEvent.advance, CarouselEvent.refresh [9]]).videos ≠ [] ∧
    getVisibleVideos (run (initState ([0, 1, 2, 3, 4] : List Nat))
        [CarouselEvent.advance, CarouselEvent.refresh [9]]) = [] := by
  decide

/-- **C4 (amended)**: `goToPage(n)` sets the offset to
`min(n * pageSize, length - pageSize)` with no lower clamp.  Whenever the
collection is at least one page long this coincides with the claimed
`min(n * pageSize, max(0, length - pageSize))`, is non-negative and never
past the final partial window; when the collection is shorter than one page
the resulting offset is the negative `length - pageSize` instead. -/
theorem goToPage_offset {α : Type} (vs : List α) (P : Nat) (i : Int) (n : Nat) :
    (goToPage ⟨vs, P, i⟩ n).currentIndex =
      min ((n : Int) * P) ((vs.length : Int) - P) ∧
    (P ≤ vs.length →
      (goToPage ⟨vs, P, i⟩ n).currentIndex =
        min ((n : Int) * P) (max 0 ((vs.length : Int) - P)) ∧
      0 ≤ (goToPage ⟨vs, P, i⟩ n).currentIndex ∧
      (goToPage ⟨vs, P, i⟩ n).currentIndex ≤ max 0 ((vs.length : Int) - P)) := by
  have hfst : (goToPage (⟨vs, P, i⟩ : CarouselState α) n).currentIndex =
      min ((n : Int) * P) ((vs.length : Int) - P) := rfl
  refine ⟨hfst, fun hfits => ?_⟩
  have hfits2 : (P : Int) ≤ (vs.length : Int) := by exact_mod_cast hfits
  have hmax : max 0 ((vs.length : Int) - P) = (vs.length : Int) - P :=
    max_eq_right (by omega)
  have hmul : (0 : Int) ≤ (n : Int) * P := by positivity
  refine ⟨by rw [hfst, hmax], ?_, ?_⟩
  · rw [hfst]
    exact le_min hmul (by omega)
  · rw [hfst, hmax]
    exact min_le_right _ _

/-- **C4 witness**: `goToPage` evaluated on a one-page collection. -/
theorem goToPage_offset_witness :
    4 ≤ ([0, 1, 2, 3] : List Nat).length ∧
    (goToPage (⟨[0, 1, 2, 3], 4, 0⟩ : CarouselState Nat) 1).currentIndex =
      min ((1 : Int) * 4) (max 0 ((([0, 1, 2, 3] : List Nat).length : Int) - 4)) :=
  ⟨by decide, ((goToPage_offset [0, 1, 2, 3] 4 0 1).2 (by decide)).1⟩

/-- **C4 counterexample**: with 2 items and page size 4, `goToPage(0)` yields
offset `-2`, not the claimed `min(0 * 4, max(0, 2 - 4)) = 0`. -/
theorem goToPage_offset_cex :
    (goToPage (initState ([0, 1] : List Nat)) 0).currentIndex ≠
      min ((0 : Int) * (initState ([0, 1] : List Nat)).itemsPerPage)
        (max 0 (((initState ([0, 1] : List Nat)).videos.length : Int) -
          (initState ([0, 1] : List Nat)).itemsPerPage)) := by
  decide

theorem stepIter_advance_mul {α : Type} (vs : List α) (P : Nat) :
    ∀ k : Nat, k * P < vs.length →
      stepIter ⟨vs, P, 0⟩ CarouselEvent.advance k = ⟨vs, P, ((k * P : Nat) : Int)⟩ := by
  intro k
  induction k with
  | zero => intro _; simp [stepIter]
  | succ k ih =>
    intro h
    have hk : k * P < vs.length := by
      have : k * P ≤ (k + 1) * P := Nat.mul_le_mul_right P (Nat.le_succ k)
      omega
    have hrec := ih hk
    have hnat : k * P + P < vs.length := by
      have hmm : (k + 1) * P = k * P + P := by ring
      omega
    show step (stepIter ⟨vs, P, 0⟩ CarouselEvent.advance k) CarouselEvent.advance = _
    rw [hrec]
    simp only [step, nextSlide]
    have hcond : ¬ (((k * P : Nat) : Int) + (P : Int) ≥ (vs.length : Int)) := by
      push_neg
      exact_mod_cast hnat
    rw [if_neg hcond]
    have hout : ((k * P : Nat) : Int) + (P : Int) = (((k + 1) * P : Nat) : Int) := by
      push_cast
      ring
    simp only [hout]

/-- **C7 (amended)**: from offset 0, Advance returns the offset to 0 after
exactly `⌈L / P⌉ = (L + P - 1) / P` applications — which is `L / P + 1` only
when `P` does not divide `L`; when `P` divides `L` it is `L / P` — and one
Retreat from offset 0 lands on `max(0, L - P)`. -/
theorem advance_wraparound {α : Type} (vs : List α) (P : Nat) (hP : 0 < P)
    (hL : 0 < vs.length) :
    (stepIter ⟨vs, P, 0⟩ CarouselEvent.advance
      ((vs.length + P - 1) / P)).currentIndex = 0 ∧
    (step (⟨vs, P, 0⟩ : CarouselState α) CarouselEvent.retreat).currentIndex =
      max ((vs.length : Int) - P) 0 := by
  constructor
  · set L := vs.length with hLdef
    set c := (L + P - 1) / P with hcdef
    have hm1 : c * P ≤ L + P - 1 := Nat.div_mul_le_self (L + P - 1) P
    have hm2 : P * c + (L + P - 1) % P = L + P - 1 := Nat.div_add_mod (L + P - 1) P
    have hm3 : (L + P - 1) % P < P := Nat.mod_lt _ hP
    have hcomm : c * P = P * c := Nat.mul_comm c P
    have hle : L ≤ c * P := by omega
    have hc1 : 1 ≤ c := by
      rcases Nat.eq_zero_or_pos c with hc0 | hc0
    -- `c = 0` would force `L ≤ 0`
      · rw [hc0] at hle; simp at hle; omega
      · exact hc0
    have hsplit : (c - 1) * P + P = c * P := by
      have : c - 1 + 1 = c := Nat.succ_pred_eq_of_pos hc1
      calc (c - 1) * P + P = (c - 1 + 1) * P := by ring
        _ = c * P := by rw [this]
    have hlt : (c - 1) * P < L := by omega
    have hstep : stepIter ⟨vs, P, 0⟩ CarouselEvent.advance (c - 1) =
        ⟨vs, P, (((c - 1) * P : Nat) : Int)⟩ := stepIter_advance_mul vs P (c - 1) hlt
    have hc : c = (c - 1) + 1 := (Nat.succ_pred_eq_of_pos hc1).symm
    rw [hc]
    show (step (stepIter ⟨vs, P, 0⟩ CarouselEvent.advance (c - 1))
      CarouselEvent.advance).currentIndex = 0
    rw [hstep]
    simp only [step, nextSlide]
    have hcond : (((c - 1) * P : Nat) : Int) + P ≥ (L : Int) := by
      have : L ≤ (c - 1) * P + P := by omega
      exact_mod_cast Int.ofNat_le.mpr this
    rw [if_pos hcond]
  · have hcond : (0 : Int) - (P : Int) < 0 := by
      have : (0 : Int) < (P : Int) := by exact_mod_cast hP
      omega
    simp only [step, prevSlide]
    rw [if_pos hcond]

/-- **C7 witness**: six items, page size 4: `⌈6/4⌉ = 2` advances wrap to 0,
and one retreat from 0 lands on `max(0, 6 - 4) = 2`. -/
theorem advance_wraparound_witness :
    0 < ([0, 1, 2, 3, 4, 5] : List Nat).length ∧
    (stepIter (⟨[0, 1, 2, 3, 4, 5], 4, 0⟩ : CarouselState Nat) CarouselEvent.advance
      ((([0, 1, 2, 3, 4, 5] : List Nat).length + 4 - 1) / 4)).currentIndex = 0 ∧
    (step (⟨[0, 1, 2, 3, 4, 5], 4, 0⟩ : CarouselState Nat)
      CarouselEvent.retreat).currentIndex =
      max ((([0, 1, 2, 3, 4, 5] : List Nat).length : Int) - 4) 0 :=
  ⟨by decide, (advance_wraparound [0, 1, 2, 3, 4, 5] 4 (by decide) (by decide)).1,
    (advance_wraparound [0, 1, 2, 3, 4, 5] 4 (by decide) (by decide)).2⟩

/-- **C7 counterexample**: for L = 8, P = 4 — where P divides L — applying
Advance `L/P + 1 = 3` times from offset 0 lands on offset 4, not 0. -/
theorem advance_wraparound_cex :
    (stepIter (initState ([0, 1, 2, 3, 4, 5, 6, 7] : List Nat))
      CarouselEvent.advance (8 / 4 + 1)).currentIndex ≠ 0 := by
  decide

/-! ## Bucket lemmas -/

theorem lookupKey_mem {l : List (String × S3Object)} {k : String} {o : S3Object}
    (h : lookupKey l k = some o) : (k, o) ∈ l := by
  induction l with
  | nil => simp [lookupKey] at h
  | cons p rest ih =>
    obtain ⟨k1, o1⟩ := p
    by_cases hk : k1 = k
    · subst hk
      simp only [lookupKey, if_true, eq_self_iff_true, Option.some.injEq] at h
      subst h
      exact List.mem_cons_self _ _
    · simp only [lookupKey, if_neg hk] at h
      exact List.mem_cons_of_mem _ (ih h)

theorem lookupKey_eq_of_mem_nodup {l : List (String × S3Object)} {k : String}
    {o : S3Object} (hmem : (k, o) ∈ l) (hnd : (l.map Prod.fst).Nodup) :
    lookupKey l k = some o := by
  induction l with
  | nil => simp at hmem
  | cons p rest ih =>
    obtain ⟨k1, o1⟩ := p
    simp only [List.map_cons, List.nodup_cons] at hnd
    rcases List.mem_cons.mp hmem with heq | hmem2
    · cases heq
      simp [lookupKey]
    · have hk : k1 ≠ k := by
        intro he
        subst he
        exact hnd.1 (List.mem_map.mpr ⟨(k1, o), hmem2, rfl⟩)
      simp only [lookupKey, if_neg hk]
      exact ih hmem2 hnd.2

theorem lookupKey_eq_none {l : List (String × S3Object)} {k : String}
    (h : k ∉ l.map Prod.fst) : lookupKey l k = none := by
  induction l with
  | nil => rfl
  | cons p rest ih =>
    obtain ⟨k1, o1⟩ := p
    simp only [List.map_cons, List.mem_cons, not_or] at h
    have hk : k1 ≠ k := fun he => h.1 he.symm
    simp only [lookupKey, if_neg hk]
    exact ih h.2

theorem lookupKey_putKey (l : List (String × S3Object)) (k k' : String) (o : S3Object) :
    lookupKey (putKey l k o) k' = if k' = k then some o else lookupKey l k' := by
  induction l with
  | nil =>
    by_cases h : k' = k
    · subst h
      simp [putKey, lookupKey]
    · have h2 : k ≠ k' := fun he => h he.symm
      simp [putKey, lookupKey, h, h2]
  | cons p rest ih =>
    obtain ⟨k1, o1⟩ := p
    by_cases h1 : k1 = k
    · by_cases h2 : k' = k1
      · simp [putKey, lookupKey, h1, h2]
      · have h2s : ¬ k1 = k' := fun he => h2 he.symm
        have h3 : ¬ k' = k := fun he => h2 (he.trans h1.symm)
        have h4 : ¬ k = k' := fun he => h3 he.symm
        simp [putKey, lookupKey, h1, h2s, h3, h4]
    · simp only [putKey, if_neg h1]
      by_cases h2 : k1 = k'
      · have hne : ¬ k' = k := fun he => h1 (h2.trans he)
        simp [lookupKey, h2, hne]
      · simp only [lookupKey, if_neg h2]
        exact ih

theorem lookupKey_removeKey_self (l : List (String × S3Object)) (k : String) :
    lookupKey (l.filter (fun p => p.1 != k)) k = none := by
  induction l with
  | nil => rfl
  | cons p rest ih =>
    obtain ⟨k1, o1⟩ := p
    by_cases h : k1 = k
    · subst h
      simpa [List.filter] using ih
    · have hb : (k1 != k) = true := bne_iff_ne.mpr h
      simp only [List.filter, hb]
      simpa [lookupKey, h] using ih

theorem readVideoMetadata_putKey_blob (st : S3State) (k contents videoId : String) :
    readVideoMetadata ⟨putKey st.objects k (S3Object.blob contents)⟩ videoId =
      if metadataKey videoId = k then none else readVideoMetadata st videoId := by
  unfold readVideoMetadata
  rw [lookupKey_putKey]
  split_ifs with h
  · rfl
  · rfl

/-! ## Content Repository theorems -/

/-- A concrete one-item bucket: a video blob and its well-formed sidecar,
owned by `alice`, public, with no thumbnail attached. -/
def mExample : VideoMetadata :=
  { id := "vid1", userId := "alice", title := "t", description := "d",
    thumbnailUrl := "", thumbnailKey := "", videoUrl := "u",
    videoKey := "videos/vid1.mp4", duration := "01:00", category := "c",
    uploadDate := "2024-01-01", isPublic := true }

def stExample : S3State :=
  ⟨[("videos/vid1.mp4", S3Object.blob "bytes"),
    ("metadata/vid1.json", S3Object.meta mExample)]⟩

/-- **C2 (amended)**: when the metadata sidecar of `videoId` does not exist,
`attachThumbnail` (`uploadThumbnail`) still writes the thumbnail blob — which
is left orphaned — makes no metadata write, and reports success: it does not
return a not-found error. -/
theorem uploadThumbnail_missing_metadata (st : S3State)
    (fileContents key videoId : String)
    (h : readVideoMetadata st videoId = none) :
    uploadThumbnail st fileContents key videoId =
      (⟨putKey st.objects ("thumbnails/" ++ key) (S3Object.blob fileContents)⟩,
       { success := true, key := some ("thumbnails/" ++ key),
         url := some (signedUrlFor ("thumbnails/" ++ key)), error := none }) := by
  have hread : readVideoMetadata
      (⟨putKey st.objects ("thumbnails/" ++ key) (S3Object.blob fileContents)⟩ : S3State)
      videoId = none := by
    rw [readVideoMetadata_putKey_blob]
    split_ifs with hk
    · rfl
    · exact h
  simp only [uploadThumbnail, hread]

/-- **C2 witness**: `uploadThumbnail` on an empty bucket. -/
theorem uploadThumbnail_missing_metadata_witness :
    readVideoMetadata ⟨[]⟩ "vid1" = none ∧
    uploadThumbnail ⟨[]⟩ "bytes" "k1" "vid1" =
      (⟨putKey [] ("thumbnails/" ++ "k1") (S3Object.blob "bytes")⟩,
       { success := true, key := some ("thumbnails/" ++ "k1"),
         url := some (signedUrlFor ("thumbnails/" ++ "k1")), error := none }) :=
  ⟨rfl, uploadThumbnail_missing_metadata ⟨[]⟩ "bytes" "k1" "vid1" rfl⟩

/-- **C2 counterexample**: with no metadata record at all, the operation
reports success with no error value — not the not-found error the claim
requires. -/
theorem uploadThumbnail_missing_metadata_cex :
    (uploadThumbnail ⟨[]⟩ "bytes" "k1" "vid1").2.success = true ∧
    (uploadThumbnail ⟨[]⟩ "bytes" "k1" "vid1").2.error = none :=
  ⟨rfl, rfl⟩

/-- **C1 (amended)**: the delete operation receives no caller identity and
performs no ownership check: whenever the metadata record exists it succeeds
for any caller, removing the record; it fails — with `Video not found`, never
`Unauthorized` — exactly when the metadata is absent, leaving the bucket
unchanged.  The ownership gate is upstream: the overlay renders the delete
control only when the signed-in user's id equals the item's `userId`. -/
theorem deleteVideo_no_ownership_check :
    (∀ (st : S3State) (videoId : String) (m : VideoMetadata),
      readVideoMetadata st videoId = some m →
        (deleteVideo st videoId).success = true ∧
        (deleteVideo st videoId).error = none ∧
        readVideoMetadata (deleteVideo st videoId).state videoId = none) ∧
    (∀ (st : S3State) (videoId : String),
      readVideoMetadata st videoId = none →
        deleteVideo st videoId =
          { state := st, success := false, error := some "Video not found",
            deletedKeys := [] }) ∧
    (∀ (currentUserId : Option String) (videoUserId : String),
      showDeleteControl currentUserId videoUserId = true ↔
        currentUserId = some videoUserId) := by
  refine ⟨fun st videoId m h => ?_, fun st videoId h => by simp [deleteVideo, h],
    fun currentUserId videoUserId => ?_⟩
  · refine ⟨by simp [deleteVideo, h], by simp [deleteVideo, h], ?_⟩
    simp only [deleteVideo, h]
    unfold readVideoMetadata removeKey
    rw [lookupKey_removeKey_self]
  · simp [showDeleteControl]

/-- **C1 witness**: deleting the concrete item of `stExample` succeeds and
removes its metadata record. -/
theorem deleteVideo_no_ownership_check_witness :
    readVideoMetadata stExample "vid1" = some mExample ∧
    (deleteVideo stExample "vid1").success = true ∧
    (deleteVideo stExample "vid1").error = none ∧
    readVideoMetadata (deleteVideo stExample "vid1").state "vid1" = none :=
  ⟨rfl, deleteVideo_no_ownership_check.1 stExample "vid1" mExample rfl⟩

/-- **C1 counterexample**: `stExample` holds an item owned by `"alice"`, yet
the delete operation — which receives no caller identity at all, so in
particular when run on behalf of a non-owner — succeeds and removes the
metadata record instead of failing with `Unauthorized` and leaving it
unchanged. -/
theorem deleteVideo_no_ownership_check_cex :
    mExample.userId = "alice" ∧
    (deleteVideo stExample "vid1").success = true ∧
    (deleteVideo stExample "vid1").error = none ∧
    readVideoMetadata (deleteVideo stExample "vid1").state "vid1" = none := by
  refine ⟨rfl, rfl, rfl, ?_⟩
  unfold deleteVideo
  simp only [show readVideoMetadata stExample "vid1" = some mExample from rfl]
  unfold readVideoMetadata removeKey
  rw [lookupKey_removeKey_self]

/-- **C10**: every metadata record written by `uploadVideo` carries the empty
string — not null — in both `thumbnailKey` and `thumbnailUrl`, and
`deleteVideo` issues a thumbnail-blob delete exactly when the stored
`thumbnailKey` is a non-empty string: deleting an item that never had a
thumbnail attached issues no thumbnail delete and raises no error. -/
theorem thumbnail_sentinel_and_delete_trace :
    (∀ (st : S3State) (fileContents key : String) (d : VideoMetadataDraft),
      readVideoMetadata (uploadVideo st fileContents key d).1 d.id =
        some { id := d.id, userId := d.userId, title := d.title,
               description := d.description, duration := d.duration,
               category := d.category, uploadDate := d.uploadDate,
               isPublic := d.isPublic, videoKey := "videos/" ++ key,
               videoUrl := signedUrlFor ("videos/" ++ key),
               thumbnailKey := "", thumbnailUrl := "" } ∧
      (uploadVideo st fileContents key d).2.success = true) ∧
    (∀ (st : S3State) (videoId : String) (m : VideoMetadata),
      readVideoMetadata st videoId = some m →
        (deleteVideo st videoId).deletedKeys =
          (if m.videoKey = "" then [] else [m.videoKey]) ++
          (if m.thumbnailKey = "" then [] else [m.thumbnailKey]) ++
          [metadataKey videoId] ∧
        (deleteVideo st videoId).success = true ∧
        (deleteVideo st videoId).error = none) := by
  constructor
  · intro st fileContents key d
    constructor
    · simp [uploadVideo, storeVideoMetadata, readVideoMetadata, lookupKey_putKey]
    · rfl
  · intro st videoId m h
    refine ⟨by simp [deleteVideo, h], by simp [deleteVideo, h], by simp [deleteVideo, h]⟩

/-- **C10 witness**: `deleteVideo` on the thumbnail-less `stExample` item
issues exactly a video-blob delete and a metadata delete. -/
theorem thumbnail_sentinel_and_delete_trace_witness :
    readVideoMetadata stExample "vid1" = some mExample ∧
    (deleteVideo stExample "vid1").deletedKeys =
      (if mExample.videoKey = "" then [] else [mExample.videoKey]) ++
      (if mExample.thumbnailKey = "" then [] else [mExample.thumbnailKey]) ++
      [metadataKey "vid1"] :=
  ⟨rfl, (thumbnail_sentinel_and_delete_trace.2 stExample "vid1" mExample rfl).1⟩

theorem hydrateKey_cons_blob (st : S3State) (k b : String)
    (hfresh : k ∉ st.objects.map Prod.fst) (k2 : String) :
    hydrateKey ⟨(k, S3Object.blob b) :: st.objects⟩ k2 = hydrateKey st k2 := by
  have hscr : readVideoMetadata ⟨(k, S3Object.blob b) :: st.objects⟩ (extractVideoId k2) =
      readVideoMetadata st (extractVideoId k2) := by
    unfold readVideoMetadata
    by_cases hk : k = metadataKey (extractVideoId k2)
    · have hnone : lookupKey st.objects (metadataKey (extractVideoId k2)) = none := by
        apply lookupKey_eq_none
        rw [← hk]
        exact hfresh
      simp [lookupKey, hk, hnone]
    · simp [lookupKey, hk]
  simp only [hydrateKey, hscr]

/-- **C5 (amended)**: `getAllVideos` never propagates a transport failure of
the listing call to its caller: the enclosing `try/catch` logs it and
returns an ordinary empty listing.  The per-item half of the claim does
hold: a corrupt sidecar — a raw blob sitting under an otherwise canonical,
fresh metadata key — is skipped during hydration and the rest of the listing
is exactly what it was without it. -/
theorem getAllVideos_error_policy :
    (∀ st : S3State, getAllVideos st false = Except.ok []) ∧
    (∀ (st : S3State) (k b : String),
      metadataKey (extractVideoId k) = k →
      k ∉ st.objects.map Prod.fst →
      getAllVideos ⟨(k, S3Object.blob b) :: st.objects⟩ true = getAllVideos st true) := by
  refine ⟨fun st => rfl, fun st k b hcanon hfresh => ?_⟩
  have hfun : hydrateKey ⟨(k, S3Object.blob b) :: st.objects⟩ = hydrateKey st :=
    funext (hydrateKey_cons_blob st k b hfresh)
  have hread : readVideoMetadata st (extractVideoId k) = none := by
    unfold readVideoMetadata
    rw [hcanon, lookupKey_eq_none hfresh]
  have hnone : hydrateKey st k = none := by
    simp only [hydrateKey, hread]
    split_ifs with h0 <;> rfl
  have hlist : listedMetadataKeys ⟨(k, S3Object.blob b) :: st.objects⟩ =
      if jsStartsWith k "metadata/" && jsEndsWith k ".json" then
        k :: listedMetadataKeys st
      else listedMetadataKeys st := by
    unfold listedMetadataKeys
    dsimp only [List.map_cons]
    rw [List.filter_cons]
    by_cases h1 : jsStartsWith k "metadata/"
    · rw [if_pos h1, List.filter_cons]
      by_cases h2 : jsEndsWith k ".json"
      · rw [if_pos h2, if_pos (Bool.and_eq_true_iff.mpr ⟨h1, h2⟩)]
      · rw [if_neg h2, if_neg (fun hc => h2 (Bool.and_eq_true_iff.mp hc).2)]
    · rw [if_neg (fun hc => h1 (Bool.and_eq_true_iff.mp hc).1),
        if_neg h1]
  show Except.ok (List.filterMap (hydrateKey ⟨(k, S3Object.blob b) :: st.objects⟩)
      (listedMetadataKeys ⟨(k, S3Object.blob b) :: st.objects⟩)) =
    Except.ok (List.filterMap (hydrateKey st) (listedMetadataKeys st))
  rw [hfun, hlist]
  split_ifs with hk
  · rw [List.filterMap_cons_none hnone]
  · rfl

/-- **C5 counterexample**: the bucket holds an item, the listing transport
call fails, and yet the caller receives the ordinary value `ok []` rather
than a propagated error. -/
theorem getAllVideos_error_policy_cex :
    isStoreError (getAllVideos stExample false) = false ∧
    getAllVideos stExample false = Except.ok [] :=
  ⟨rfl, rfl⟩

/-- **C5 witness**: adding a corrupt sidecar blob under the fresh canonical
key `metadata/x.json` to `stExample` leaves the listing unchanged. -/
theorem getAllVideos_error_policy_witness :
    metadataKey (extractVideoId "metadata/x.json") = "metadata/x.json" ∧
    "metadata/x.json" ∉ stExample.objects.map Prod.fst ∧
    getAllVideos ⟨("metadata/x.json", S3Object.blob "junk") :: stExample.objects⟩ true =
      getAllVideos stExample true :=
  ⟨by decide, by decide,
    getAllVideos_error_policy.2 stExample "metadata/x.json" "junk" (by decide) (by decide)⟩

theorem wellFormedEntry_meta {k : String} {m : VideoMetadata}
    (h : wellFormedEntry (k, S3Object.meta m) = true) :
    k = metadataKey m.id ∧ extractVideoId k = m.id ∧ m.id ≠ "" ∧
    jsStartsWith k "metadata/" = true ∧ jsEndsWith k ".json" = true := by
  simp only [wellFormedEntry, Bool.and_eq_true, beq_iff_eq, Bool.not_eq_true',
    beq_eq_false_iff_ne] at h
  tauto

theorem wellFormedEntry_blob {k contents : String}
    (h : wellFormedEntry (k, S3Object.blob contents) = true)
    (hs : jsStartsWith k "metadata/" = true) (he : jsEndsWith k ".json" = true) :
    False := by
  simp [wellFormedEntry, hs, he] at h

theorem readVideoMetadata_some_lookup {st : S3State} {i : String} {m : VideoMetadata}
    (hread : readVideoMetadata st i = some m) :
    lookupKey st.objects (metadataKey i) = some (S3Object.meta m) := by
  unfold readVideoMetadata at hread
  generalize hcase : lookupKey st.objects (metadataKey i) = res at hread ⊢
  cases res with
  | none => simp at hread
  | some o =>
    cases o with
    | blob contents => simp at hread
    | meta m2 =>
      simp at hread
      rw [hread]

/-- The hydrated listing of a well-formed bucket consists exactly of the
hydrated forms of its stored metadata records. -/
theorem hydrate_membership (st : S3State) (hwf : wellFormed st) (v : VideoMetadata) :
    v ∈ (listedMetadataKeys st).filterMap (hydrateKey st) ↔
      ∃ m : VideoMetadata,
        (metadataKey m.id, S3Object.meta m) ∈ st.objects ∧ v = hydrate m := by
  obtain ⟨hnd, hent⟩ := hwf
  constructor
  · intro hv
    obtain ⟨k, hk_listed, hk_hyd⟩ := List.mem_filterMap.mp hv
    obtain ⟨hk1, hends⟩ := List.mem_filter.mp hk_listed
    obtain ⟨hkmap, hstarts⟩ := List.mem_filter.mp hk1
    obtain ⟨⟨k0, o⟩, hmem, hfst⟩ := List.mem_map.mp hkmap
    dsimp only at hfst
    subst hfst
    cases o with
    | blob contents =>
      exact absurd (hent _ hmem) (fun hw => wellFormedEntry_blob hw hstarts hends)
    | meta m =>
      obtain ⟨hkeq, hext, hid, _, _⟩ := wellFormedEntry_meta (hent _ hmem)
      have hsome : hydrateKey st k0 = some (hydrate m) := by
        simp only [hydrateKey, hext]
        rw [if_neg hid]
        have hlook : readVideoMetadata st m.id = some m := by
          unfold readVideoMetadata
          rw [← hkeq, lookupKey_eq_of_mem_nodup hmem hnd]
        rw [hlook]
      rw [hsome] at hk_hyd
      obtain rfl := Option.some.inj hk_hyd
      rw [hkeq] at hmem
      exact ⟨m, hmem, rfl⟩
  · rintro ⟨m, hmem, rfl⟩
    obtain ⟨_, hext, hid, hstarts, hends⟩ := wellFormedEntry_meta (hent _ hmem)
    apply List.mem_filterMap.mpr
    refine ⟨metadataKey m.id, ?_, ?_⟩
    · exact List.mem_filter.mpr
        ⟨List.mem_filter.mpr
          ⟨List.mem_map.mpr ⟨(metadataKey m.id, S3Object.meta m), hmem, rfl⟩, hstarts⟩,
         hends⟩
    · simp only [hydrateKey, hext]
      rw [if_neg hid]
      have hlook : readVideoMetadata st m.id = some m := by
        unfold readVideoMetadata
        rw [lookupKey_eq_of_mem_nodup hmem hnd]
      rw [hlook]

/-- **C6**: over a well-formed bucket, the visible listing — `getAllVideos`
composed with the `fetchAndFilterVideos` visibility filter — contains the
hydrated form of a stored item iff the item is public or owned by the
signed-in caller (for an unauthenticated caller: iff the item is public,
since no ownerId can equal an absent caller); and no returned item carries
the id of a record whose metadata is absent (deleted). -/
theorem listVisible_iff (st : S3State) (u : String) (hwf : wellFormed st)
    (hu : u ≠ "") :
    (∀ i m, readVideoMetadata st i = some m →
      (hydrate m ∈ fetchAndFilterVideos st true (some u) ↔
        (m.isPublic = true ∨ m.userId = u))) ∧
    (∀ i m, readVideoMetadata st i = some m →
      (hydrate m ∈ fetchAndFilterVideos st true none ↔ m.isPublic = true)) ∧
    (∀ i, readVideoMetadata st i = none →
      ∀ v ∈ fetchAndFilterVideos st true (some u), v.id ≠ i) := by
  have hfetch : fetchAndFilterVideos st true (some u) =
      ((listedMetadataKeys st).filterMap (hydrateKey st)).filter
        (visibleFilter (some u)) := rfl
  have hfetchn : fetchAndFilterVideos st true none =
      ((listedMetadataKeys st).filterMap (hydrateKey st)).filter
        (visibleFilter none) := rfl
  have hub : (u == "") = false := beq_eq_false_iff_ne.mpr hu
  have hmemo : ∀ i m, readVideoMetadata st i = some m →
      hydrate m ∈ (listedMetadataKeys st).filterMap (hydrateKey st) := by
    intro i m hread
    have hmem : (metadataKey i, S3Object.meta m) ∈ st.objects :=
      lookupKey_mem (readVideoMetadata_some_lookup hread)
    obtain ⟨hkeq, _, _, _, _⟩ := wellFormedEntry_meta (hwf.2 _ hmem)
    rw [hkeq] at hmem
    exact (hydrate_membership st hwf (hydrate m)).mpr ⟨m, hmem, rfl⟩
  refine ⟨?_, ?_, ?_⟩
  · intro i m hread
    have hlisted := hmemo i m hread
    rw [hfetch]
    constructor
    · intro hvmem
      have hfilt := (List.mem_filter.mp hvmem).2
      simpa [visibleFilter, hydrate, hub] using hfilt
    · intro hvis
      refine List.mem_filter.mpr ⟨hlisted, ?_⟩
      simpa [visibleFilter, hydrate, hub] using hvis
  · intro i m hread
    have hlisted := hmemo i m hread
    rw [hfetchn]
    constructor
    · intro hvmem
      have hfilt := (List.mem_filter.mp hvmem).2
      simpa [visibleFilter, hydrate] using hfilt
    · intro hvis
      refine List.mem_filter.mpr ⟨hlisted, ?_⟩
      simpa [visibleFilter, hydrate] using hvis
  · intro i hread v hv
    rw [hfetch] at hv
    obtain ⟨m, hmem, rfl⟩ :=
      (hydrate_membership st hwf v).mp (List.mem_filter.mp hv).1
    intro hid
    have hid2 : m.id = i := hid
    subst hid2
    have hlook : lookupKey st.objects (metadataKey m.id) =
        some (S3Object.meta m) := lookupKey_eq_of_mem_nodup hmem hwf.1
    unfold readVideoMetadata at hread
    rw [hlook] at hread
    simp at hread

/-- **C6 witness**: in the concrete well-formed bucket `stExample`, the
owner `alice` sees the (public) item, and the visibility condition holds. -/
theorem listVisible_iff_witness :
    readVideoMetadata stExample "vid1" = some mExample ∧
    (hydrate mExample ∈ fetchAndFilterVideos stExample true (some "alice") ↔
      (mExample.isPublic = true ∨ mExample.userId = "alice")) :=
  ⟨rfl, (listVisible_iff stExample "alice" (by decide) (by decide)).1 "vid1" mExample rfl⟩

/-! ## Review Store theorems -/

theorem find?_map_update (p : Review → Bool) (u : Review → Review)
    (hu : ∀ r, p (u r) = p r) (table : List Review) :
    (table.map (fun r => if p r then u r else r)).find? p =
      (table.find? p).map u := by
  induction table with
  | nil => rfl
  | cons r rest ih =>
    by_cases h : p r
    · rw [List.find?_cons_of_pos _ h]
      simp only [List.map_cons, if_pos h]
      rw [List.find?_cons_of_pos _ (by rw [hu r]; exact h)]
      rfl
    · rw [List.find?_cons_of_neg _ h]
      simp only [List.map_cons, if_neg h]
      rw [List.find?_cons_of_neg _ h]
      exact ih

theorem find?_map_set (p : Review → Bool) (updated : Review)
    (hp : p updated = true) :
    ∀ (table : List Review) (r0 : Review), table.find? p = some r0 →
      (table.map (fun r => if p r then updated else r)).find? p = some updated := by
  intro table
  induction table with
  | nil => intro r0 h; simp at h
  | cons r rest ih =>
    intro r0 h
    by_cases hr : p r
    · simp only [List.map_cons, if_pos hr]
      rw [List.find?_cons_of_pos _ hp]
    · rw [List.find?_cons_of_neg _ hr] at h
      simp only [List.map_cons, if_neg hr]
      rw [List.find?_cons_of_neg _ hr]
      exact ih r0 h

/-- **C8**: `updateReview` re-reads the review and fails with
`Review not found` when it is absent; fails with
`Unauthorized to edit this review` when the acting identity differs from the
stored author — the table is returned unchanged in both failure cases; and
on success it persists exactly the new comment and rating together with the
fresh `updatedAt`, every other field unchanged. -/
theorem updateReview_spec (table : ReviewTable) (uid rid : String)
    (data : UpdateReviewData) (now : String) :
    (getReview table rid = none →
      updateReview table uid rid data now =
        (table, Except.error "Review not found")) ∧
    (∀ r, getReview table rid = some r → r.userId ≠ uid →
      updateReview table uid rid data now =
        (table, Except.error "Unauthorized to edit this review")) ∧
    (∀ r, getReview table rid = some r → r.userId = uid →
      (updateReview table uid rid data now).2 =
        Except.ok { r with comment := data.comment, rating := data.rating,
                           updatedAt := now } ∧
      getReview (updateReview table uid rid data now).1 rid =
        some { r with comment := data.comment, rating := data.rating,
                      updatedAt := now }) := by
  refine ⟨fun h => by simp [updateReview, h],
    fun r hr hne => by simp [updateReview, hr, hne], fun r hr heq => ?_⟩
  have hid : (r.id == rid) = true := by
    have := List.find?_some hr
    simpa using this
  constructor
  · simp [updateReview, hr, heq]
  · have h2 : (updateReview table uid rid data now).1 =
        table.map (fun x => if x.id == rid then
          { r with comment := data.comment, rating := data.rating,
                   updatedAt := now } else x) := by
      simp [updateReview, hr, heq]
    rw [h2]
    exact find?_map_set (fun x => x.id == rid)
      { r with comment := data.comment, rating := data.rating, updatedAt := now }
      (by simpa using hid) table r hr

/-- **C8 witness**: a successful owner update on a one-review table. -/
def reviewExample : Review :=
  { id := "vid1#2024", videoId := "vid1", userId := "alice", rating := 5,
    comment := "nice", createdAt := "2024-01-01", updatedAt := "2024-01-01",
    userEmail := "alice@example.com", replies := [] }

theorem updateReview_spec_witness :
    getReview [reviewExample] "vid1#2024" = some reviewExample ∧
    reviewExample.userId = "alice" ∧
    (updateReview [reviewExample] "alice" "vid1#2024" ⟨"edited", 4⟩ "2024-02-02").2 =
      Except.ok { reviewExample with comment := "edited", rating := 4,
                                     updatedAt := "2024-02-02" } :=
  ⟨rfl, rfl,
    ((updateReview_spec [reviewExample] "alice" "vid1#2024" ⟨"edited", 4⟩
      "2024-02-02").2.2 reviewExample rfl rfl).1⟩

/-- **C9**: `addReply` turns a stored reply list `R` into `R ++ [newReply]`,
preserving every existing reply; applying it twice with two drafts — in
either order, since both drafts are arbitrary — leaves a review whose reply
list contains both new replies (no lost update). -/
theorem addReply_appends (table : ReviewTable) (rid : String) (r : Review)
    (d1 d2 : ReplyDraft) (t1 t2 : Nat) (s1 s2 : String)
    (hr : getReview table rid = some r) :
    (addReply table rid d1 t1 s1).2 =
      some { r with replies := r.replies ++ [mkNewReply rid d1 t1 s1] } ∧
    getReview (addReply table rid d1 t1 s1).1 rid =
      some { r with replies := r.replies ++ [mkNewReply rid d1 t1 s1] } ∧
    getReview (addReply (addReply table rid d1 t1 s1).1 rid d2 t2 s2).1 rid =
      some { r with replies :=
        r.replies ++ [mkNewReply rid d1 t1 s1] ++ [mkNewReply rid d2 t2 s2] } ∧
    (∀ rf,
      getReview (addReply (addReply table rid d1 t1 s1).1 rid d2 t2 s2).1 rid =
        some rf →
      mkNewReply rid d1 t1 s1 ∈ rf.replies ∧ mkNewReply rid d2 t2 s2 ∈ rf.replies) := by
  have happ : ∀ (tb : ReviewTable) (r0 : Review) (d : ReplyDraft) (t : Nat) (s : String),
      getReview tb rid = some r0 →
      getReview (addReply tb rid d t s).1 rid =
        some { r0 with replies := r0.replies ++ [mkNewReply rid d t s] } := by
    intro tb r0 d t s h0
    show ((tb.map (fun x => if x.id == rid then
        { x with replies := x.replies ++ [mkNewReply rid d t s] } else x)).find?
        (fun x => x.id == rid)) = _
    rw [find?_map_update (fun x => x.id == rid)
      (fun x => { x with replies := x.replies ++ [mkNewReply rid d t s] })
      (fun x => rfl) tb]
    rw [show tb.find? (fun x => x.id == rid) = some r0 from h0]
    rfl
  have h1 := happ table r d1 t1 s1 hr
  have h2 := happ (addReply table rid d1 t1 s1).1
    { r with replies := r.replies ++ [mkNewReply rid d1 t1 s1] } d2 t2 s2 h1
  refine ⟨h1, h1, h2, fun rf hrf => ?_⟩
  rw [h2] at hrf
  obtain rfl := Option.some.inj hrf.symm
  constructor
  · exact List.mem_append.mpr (Or.inl (List.mem_append.mpr (Or.inr (by simp))))
  · exact List.mem_append.mpr (Or.inr (by simp))

/-- **C9 witness**: two concrete replies both survive on a one-review table. -/
theorem addReply_appends_witness :
    getReview [reviewExample] "vid1#2024" = some reviewExample ∧
    (∀ rf,
      getReview (addReply (addReply [reviewExample] "vid1#2024" ⟨"bob", "hi", "b@x"⟩
          1 "t1").1 "vid1#2024" ⟨"carol", "yo", "c@x"⟩ 2 "t2").1 "vid1#2024" =
        some rf →
      mkNewReply "vid1#2024" ⟨"bob", "hi", "b@x"⟩ 1 "t1" ∈ rf.replies ∧
      mkNewReply "vid1#2024" ⟨"carol", "yo", "c@x"⟩ 2 "t2" ∈ rf.replies) :=
  ⟨rfl, (addReply_appends [reviewExample] "vid1#2024" reviewExample
    ⟨"bob", "hi", "b@x"⟩ ⟨"carol", "yo", "c@x"⟩ 1 2 "t1" "t2" rfl).2.2.2⟩

end OdinVR
